import Mathlib

/-!
Shallow embedding of the Microwave memory agent (Python sources:
`agent_with_memory.py`, `memory_with_embeddings.py`, `agent_with_behaviors.py`).

Conventions of the embedding:
* Python strings are Lean `String`s; Python `str.lower()` lowercases
  characterwise, `needle in haystack` is a substring test on the character
  lists, and `s.endswith(t)` is a suffix test on the character lists.
* The file system is modelled as an association list from file name to file
  content; reads and writes that can raise are modelled with `Except`.
* The OpenAI completion and embedding services are external collaborators:
  model responses are given by a script, embeddings are abstract vectors of
  rationals, and the float cosine similarity is an abstract score function.
-/

namespace Microwave

/-- The single-quote character `'` (used in several user-facing messages). -/
def squote : String := ⟨[Char.ofNat 39]⟩

/-- Python `needle in haystack` on strings: contiguous-substring test,
translated to the character lists. -/
def subListOf (needle : List Char) : List Char → Bool
  | [] => needle.isEmpty
  | c :: t => needle.isPrefixOf (c :: t) || subListOf needle t

/-- Python `s.endswith(suffix)`, translated to the character lists. -/
def pyEndsWith (s suffix : String) : Bool :=
  suffix.data.isSuffixOf s.data

/-- Python `needle in haystack` on whole strings. -/
def pyIn (needle haystack : String) : Bool :=
  subListOf needle.data haystack.data

/-- Python `s.lower()`, translated characterwise. -/
def pyLower (s : String) : String :=
  ⟨s.data.map Char.toLower⟩

theorem subListOf_iff (n : List Char) :
    ∀ h : List Char, subListOf n h = true ↔ n <:+: h := by
  intro h
  induction h with
  | nil =>
    simp only [subListOf, List.isEmpty_iff]
    constructor
    · intro he; simp [he]
    · intro hi; exact List.eq_nil_of_infix_nil hi
  | cons c t ih =>
    simp only [subListOf, Bool.or_eq_true, List.isPrefixOf_iff_prefix, ih,
      List.infix_cons_iff]

theorem pyIn_iff (needle haystack : String) :
    pyIn needle haystack = true ↔ needle.data <:+: haystack.data :=
  subListOf_iff needle.data haystack.data

theorem pyEndsWith_append (s t : String) : pyEndsWith (s ++ t) t = true := by
  simp only [pyEndsWith, String.data_append, List.isSuffixOf_iff_suffix]
  exact List.suffix_append s.data t.data

/-- Two appended strings differ when their (nonempty) left parts start with
different characters. -/
theorem append_ne_append_of_head {a b : String} (ta tb : String)
    {ca cb : Char} (hca : a.data.head? = some ca) (hcb : b.data.head? = some cb)
    (hne : ca ≠ cb) : a ++ ta ≠ b ++ tb := by
  intro he
  have hd : (a ++ ta).data = (b ++ tb).data := congrArg String.data he
  rw [String.data_append, String.data_append] at hd
  have h1 : (a.data ++ ta.data).head? = some ca := by
    rw [List.head?_append, hca]; rfl
  have h2 : (b.data ++ tb.data).head? = some cb := by
    rw [List.head?_append, hcb]; rfl
  rw [hd, h2] at h1
  exact hne (Option.some.inj h1).symm

/-! ## Messages and context trimming (`agent_with_memory.py`) -/

/-- Message roles used by the agent loop. -/
inductive Role where
  | system
  | user
  | assistant
  | tool
deriving DecidableEq, Repr

/-- One tool call requested by the model (`tc.id`, `tc.function.name`,
`tc.function.arguments`). -/
structure ToolCallSpec where
  id : String
  name : String
  arguments : String
deriving DecidableEq, Repr

/-- One entry of the `messages` array. `tool_calls` is empty and
`tool_call_id` is `none` except where the Python dict carries those keys. -/
structure Message where
  role : Role
  content : String
  tool_calls : List ToolCallSpec := []
  tool_call_id : Option String := none
deriving DecidableEq, Repr

/-- `MAX_MESSAGES = 20  # Keep last 20 messages (10 turns)` -/
def MAX_MESSAGES : Nat := 20

/-- `trim_messages` from `agent_with_memory.py`: keep the system prompt plus
the last `MAX_MESSAGES` messages.  (The `[]` branch is unreachable: the
guard requires length `> MAX_MESSAGES + 1`.) -/
def trim_messages (messages : List Message) : List Message :=
  if messages.length ≤ MAX_MESSAGES + 1 then
    messages
  else
    match messages with
    | [] => []
    | system :: _ => system :: messages.drop (messages.length - MAX_MESSAGES)

theorem trim_messages_cons (sys : Message) (rest : List Message) :
    trim_messages (sys :: rest) = sys :: rest.drop (rest.length - MAX_MESSAGES) := by
  unfold trim_messages
  by_cases h : (sys :: rest).length ≤ MAX_MESSAGES + 1
  · rw [if_pos h]
    have hr : rest.length ≤ MAX_MESSAGES := by
      simpa [Nat.succ_le_succ_iff] using h
    have : rest.length - MAX_MESSAGES = 0 := Nat.sub_eq_zero_of_le hr
    rw [this, List.drop_zero]
  · rw [if_neg h]
    simp only [List.length_cons, Nat.not_le] at h
    have hlen : (sys :: rest).length - MAX_MESSAGES = rest.length - MAX_MESSAGES + 1 := by
      simp only [List.length_cons]
      omega
    simp only [hlen, List.drop_succ_cons]

theorem trim_messages_length (messages : List Message) :
    (trim_messages messages).length = min messages.length (MAX_MESSAGES + 1) := by
  cases messages with
  | nil => simp [trim_messages]
  | cons sys rest =>
    rw [trim_messages_cons]
    simp only [List.length_cons, List.length_drop]
    omega

/-- C1. `trim_messages`, applied to a history whose first element is the
system message, returns the system message followed by the last
`min (L-1, MAX_MESSAGES)` input messages in their original order, and the
result has length `min (L, MAX_MESSAGES + 1)`. -/
theorem trim_messages_spec (sys : Message) (rest : List Message) :
    (trim_messages (sys :: rest)).head? = some sys ∧
    (trim_messages (sys :: rest)).length
      = min (sys :: rest).length (MAX_MESSAGES + 1) ∧
    (trim_messages (sys :: rest)).tail = rest.drop (rest.length - MAX_MESSAGES) ∧
    (trim_messages (sys :: rest)).tail.length = min rest.length MAX_MESSAGES ∧
    (trim_messages (sys :: rest)).tail <:+ rest := by
  refine ⟨?_, trim_messages_length _, ?_, ?_, ?_⟩
  · rw [trim_messages_cons]; rfl
  · rw [trim_messages_cons]; rfl
  · rw [trim_messages_cons]
    simp only [List.tail_cons, List.length_drop]
    omega
  · rw [trim_messages_cons]
    exact List.drop_suffix _ _

/-! ## The agent loop (`main` in `agent_with_memory.py`) -/

/-- One completion-service response (`response.choices[0].message`):
assistant content plus the requested tool calls (the list is empty when the
model answers directly). -/
structure ModelMsg where
  content : String
  tool_calls : List ToolCallSpec
deriving DecidableEq, Repr

/-- `{"role": "user", "content": user_input}` -/
def userMessage (input : String) : Message :=
  { role := Role.user, content := input }

/-- `{"role": "assistant", "content": assistant_message.content}` -/
def assistantFinal (content : String) : Message :=
  { role := Role.assistant, content := content }

/-- The assistant message recording the requested tool calls. -/
def assistantWithCalls (content : String) (calls : List ToolCallSpec) : Message :=
  { role := Role.assistant, content := content, tool_calls := calls }

/-- `{"role": "tool", "tool_call_id": tool_call.id, "content": result}` -/
def toolMessage (id result : String) : Message :=
  { role := Role.tool, content := result, tool_call_id := some id }

/-- The `for tool_call in assistant_message.tool_calls` loop: execute each
call in order against the threaded external state `σ` (the dispatcher `ex`),
producing one `role:tool` message per call, in request order. -/
def runToolCalls {σ : Type} (ex : σ → ToolCallSpec → String × σ) :
    σ → List ToolCallSpec → List Message × σ
  | s, [] => ([], s)
  | s, tc :: rest =>
    let r := ex s tc
    let tl := runToolCalls ex r.2 rest
    (toolMessage tc.id r.1 :: tl.1, tl.2)

/-- The inner `while True` loop of `main`.  At each iteration the completion
service is invoked on the current history (the history length at each
invocation is recorded in the third result component); if the response
carries tool calls, the assistant message and all tool-result messages are
appended and the loop repeats, otherwise the final assistant message is
appended and the loop ends.  `script` lists the successive service
responses; an exhausted script behaves like a direct answer with empty
content. -/
def innerLoop {σ : Type} (ex : σ → ToolCallSpec → String × σ) :
    List ModelMsg → List Message → σ → List Message × σ × List Nat
  | [], msgs, s => (msgs ++ [assistantFinal ""], s, [msgs.length])
  | m :: script, msgs, s =>
    if m.tool_calls.isEmpty then
      (msgs ++ [assistantFinal m.content], s, [msgs.length])
    else
      let tr := runToolCalls ex s m.tool_calls
      let r := innerLoop ex script
        (msgs ++ assistantWithCalls m.content m.tool_calls :: tr.1) tr.2
      (r.1, r.2.1, msgs.length :: r.2.2)

/-- One user turn of `main`: append the user message, trim, run the inner
loop. -/
def userTurn {σ : Type} (ex : σ → ToolCallSpec → String × σ)
    (msgs : List Message) (input : String) (script : List ModelMsg) (s : σ) :
    List Message × σ × List Nat :=
  innerLoop ex script (trim_messages (msgs ++ [userMessage input])) s

/-- The history lengths seen by the completion service in one user turn. -/
def invocationLengths {σ : Type} (ex : σ → ToolCallSpec → String × σ)
    (msgs : List Message) (input : String) (script : List ModelMsg) (s : σ) :
    List Nat :=
  (userTurn ex msgs input script s).2.2

theorem innerLoop_lengths_head {σ : Type} (ex : σ → ToolCallSpec → String × σ)
    (script : List ModelMsg) (msgs : List Message) (s : σ) :
    (innerLoop ex script msgs s).2.2.head? = some msgs.length := by
  cases script with
  | nil => rfl
  | cons m rest =>
    rw [innerLoop]
    split
    · rfl
    · rfl

/-- A stored history of 21 messages (system prompt plus 20 prior messages),
as left by a previous full turn. -/
def c2History : List Message :=
  { role := Role.system, content := "sys" } :: List.replicate 20 (userMessage "x")

/-- A model script: one tool-call round, then a direct answer. -/
def c2Script : List ModelMsg :=
  [ModelMsg.mk "" [ToolCallSpec.mk "call1" "get_current_time" ""],
   ModelMsg.mk "done" []]

/-- A dispatcher stub for the counterexample. -/
def c2Exec : Unit → ToolCallSpec → String × Unit := fun s _ => ("2025-01-01", s)

/-- C2 (counterexample). With a stored history of 21 messages, the second
completion-service invocation of the turn — the one following tool
execution — sees 23 messages: the history length does exceed
`MAX_MESSAGES + 1` at an invocation of the completion service. -/
theorem c2_counterexample :
    invocationLengths c2Exec c2History "hi" c2Script () = [21, 23] ∧
    ¬ (∀ n ∈ invocationLengths c2Exec c2History "hi" c2Script (),
        n ≤ MAX_MESSAGES + 1) := by
  have hlen : invocationLengths c2Exec c2History "hi" c2Script () = [21, 23] := by
    rfl
  refine ⟨hlen, fun hall => ?_⟩
  have h := hall 23 (by rw [hlen]; exact List.mem_cons_of_mem _ (List.mem_singleton.mpr rfl))
  simp [MAX_MESSAGES] at h

/-- C2 (amended). The trim policy is applied once per user turn, after the
user message is appended and before the first `ModelTurn`: the first
completion-service invocation of each user turn sees exactly
`min (L + 1, MAX_MESSAGES + 1)` messages (where `L` is the stored history
length), which never exceeds `MAX_MESSAGES + 1`.  Invocations that follow
tool execution within the same turn are not re-trimmed and may exceed the
ceiling. -/
theorem trim_before_first_model_turn {σ : Type}
    (ex : σ → ToolCallSpec → String × σ) (msgs : List Message) (input : String)
    (script : List ModelMsg) (s : σ) :
    (invocationLengths ex msgs input script s).head?
        = some (min (msgs.length + 1) (MAX_MESSAGES + 1)) ∧
    min (msgs.length + 1) (MAX_MESSAGES + 1) ≤ MAX_MESSAGES + 1 := by
  constructor
  · have h := innerLoop_lengths_head ex script
      (trim_messages (msgs ++ [userMessage input])) s
    have hl := trim_messages_length (msgs ++ [userMessage input])
    unfold invocationLengths userTurn
    rw [h, hl]
    simp
  · exact Nat.min_le_right _ _

theorem runToolCalls_spec {σ : Type} (ex : σ → ToolCallSpec → String × σ) :
    ∀ (calls : List ToolCallSpec) (s : σ),
      (runToolCalls ex s calls).1.map Message.tool_call_id
          = calls.map (fun c => some c.id) ∧
      (runToolCalls ex s calls).1.map Message.role
          = calls.map (fun _ => Role.tool) := by
  intro calls
  induction calls with
  | nil => intro s; exact ⟨rfl, rfl⟩
  | cons tc rest ih =>
    intro s
    have h := ih (ex s tc).2
    refine ⟨?_, ?_⟩
    · simp only [runToolCalls, List.map_cons, toolMessage]
      exact congrArg _ h.1
    · simp only [runToolCalls, List.map_cons, toolMessage]
      exact congrArg _ h.2

/-- C7. When a model response carries tool calls, the session appends one
assistant message embedding the requests, then one `role:tool` message per
request — in request order, each with the matching `tool_call_id` — and
only then invokes the completion service again on the extended history. -/
theorem tool_execution_order {σ : Type} (ex : σ → ToolCallSpec → String × σ)
    (s : σ) (msgs : List Message) (content : String)
    (calls : List ToolCallSpec) (script : List ModelMsg) (h : calls ≠ []) :
    (runToolCalls ex s calls).1.map Message.tool_call_id
        = calls.map (fun c => some c.id) ∧
    (runToolCalls ex s calls).1.map Message.role
        = calls.map (fun _ => Role.tool) ∧
    innerLoop ex (ModelMsg.mk content calls :: script) msgs s
      = ((innerLoop ex script
            (msgs ++ assistantWithCalls content calls :: (runToolCalls ex s calls).1)
            (runToolCalls ex s calls).2).1,
         (innerLoop ex script
            (msgs ++ assistantWithCalls content calls :: (runToolCalls ex s calls).1)
            (runToolCalls ex s calls).2).2.1,
         msgs.length ::
           (innerLoop ex script
              (msgs ++ assistantWithCalls content calls :: (runToolCalls ex s calls).1)
              (runToolCalls ex s calls).2).2.2) := by
  have hempty : calls.isEmpty = false := by
    cases calls with
    | nil => exact absurd rfl h
    | cons a t => rfl
  refine ⟨(runToolCalls_spec ex calls s).1, (runToolCalls_spec ex calls s).2, ?_⟩
  rw [innerLoop]
  simp only [hempty, Bool.false_eq_true, if_false]

/-- A dispatcher stub for the C7 witness. -/
def c7Exec : Unit → ToolCallSpec → String × Unit := fun s tc => (tc.name, s)

/-- A concrete tool call for the C7 witness. -/
def c7Call : ToolCallSpec := ToolCallSpec.mk "id1" "memory_list" ""

theorem tool_execution_order_witness :
    (([c7Call] : List ToolCallSpec) ≠ []) ∧
    ((runToolCalls c7Exec () [c7Call]).1.map Message.tool_call_id
        = [c7Call].map (fun c => some c.id) ∧
     (runToolCalls c7Exec () [c7Call]).1.map Message.role
        = [c7Call].map (fun _ => Role.tool) ∧
     innerLoop c7Exec (ModelMsg.mk "hi" [c7Call] :: []) [] ()
       = ((innerLoop c7Exec []
             ([] ++ assistantWithCalls "hi" [c7Call] :: (runToolCalls c7Exec () [c7Call]).1)
             (runToolCalls c7Exec () [c7Call]).2).1,
          (innerLoop c7Exec []
             ([] ++ assistantWithCalls "hi" [c7Call] :: (runToolCalls c7Exec () [c7Call]).1)
             (runToolCalls c7Exec () [c7Call]).2).2.1,
          ([] : List Message).length ::
            (innerLoop c7Exec []
               ([] ++ assistantWithCalls "hi" [c7Call] :: (runToolCalls c7Exec () [c7Call]).1)
               (runToolCalls c7Exec () [c7Call]).2).2.2)) :=
  ⟨by simp, tool_execution_order c7Exec () [] "hi" [c7Call] [] (by simp)⟩

/-! ## Exact-match memory store (`agent_with_memory.py`)

The memory directory is modelled as an association list from file name
(extension included) to file content.  The directory itself always exists:
the module creates it at load time with
`os.makedirs(MEMORY_DIR, exist_ok=True)`. -/

/-- The store: one `(filename, content)` pair per file in `./memory/`. -/
abbrev FileStore : Type := List (String × String)

/-- `f"=== {filename} ===\n{content}"` — one search hit, carrying the whole
file. -/
def searchEntry (fn content : String) : String :=
  "=== " ++ fn ++ " ===\n" ++ content

/-- The `for filename in os.listdir(MEMORY_DIR)` loop of `memory_search`:
collect every `.md` file whose lowercased content contains the lowercased
query. -/
def searchLoop (query_lower : String) : List (String × String) → List String
  | [] => []
  | (fn, content) :: rest =>
    if pyEndsWith fn ".md" then
      if pyIn query_lower (pyLower content) then
        searchEntry fn content :: searchLoop query_lower rest
      else
        searchLoop query_lower rest
    else
      searchLoop query_lower rest

/-- `memory_search` from `agent_with_memory.py` (exact-match version); the
Python local `results` is `searchLoop (pyLower query) store`. -/
def memory_search (store : FileStore) (query : String) : String :=
  if (searchLoop (pyLower query) store).isEmpty then
    "No memories found matching " ++ squote ++ query ++ squote
  else
    String.intercalate "\n\n" (searchLoop (pyLower query) store)

/-- Whether one store entry matches the query in `memory_search`. -/
def searchMatches (query : String) (p : String × String) : Bool :=
  pyEndsWith p.1 ".md" && pyIn (pyLower query) (pyLower p.2)

theorem searchLoop_eq_filter (q : String) :
    ∀ store : List (String × String),
      searchLoop q store
        = (store.filter (fun p => pyEndsWith p.1 ".md" && pyIn q (pyLower p.2))).map
            (fun p => searchEntry p.1 p.2) := by
  intro store
  induction store with
  | nil => rfl
  | cons p rest ih =>
    obtain ⟨fn, content⟩ := p
    by_cases h1 : pyEndsWith fn ".md" = true
    · by_cases h2 : pyIn q (pyLower content) = true
      · simp [searchLoop, h1, h2, List.filter_cons, ih]
      · simp only [Bool.not_eq_true] at h2
        simp [searchLoop, h1, h2, List.filter_cons, ih]
    · simp only [Bool.not_eq_true] at h1
      simp [searchLoop, h1, List.filter_cons, ih]

/-- C4. Exact-match `memory_search` is a case-insensitive substring search
over the full note body of every `.md` category: the result list is exactly
the matching categories, each rendered with its entire note text; a
matching category always appears, every hit comes from a matching category,
and when nothing matches the result is the explicit
`No memories found matching '<query>'` message. -/
theorem memory_search_exact_spec (store : FileStore) (query : String) :
    searchLoop (pyLower query) store
      = (store.filter (searchMatches query)).map (fun p => searchEntry p.1 p.2) ∧
    (∀ p ∈ store, pyEndsWith p.1 ".md" = true →
      (pyLower query).data <:+: (pyLower p.2).data →
      searchEntry p.1 p.2 ∈ searchLoop (pyLower query) store) ∧
    (∀ r ∈ searchLoop (pyLower query) store, ∃ p ∈ store,
      pyEndsWith p.1 ".md" = true ∧ (pyLower query).data <:+: (pyLower p.2).data ∧
      r = searchEntry p.1 p.2) ∧
    ((store.filter (searchMatches query)).isEmpty = true →
      memory_search store query
        = "No memories found matching " ++ squote ++ query ++ squote) ∧
    ((store.filter (searchMatches query)).isEmpty = false →
      memory_search store query
        = String.intercalate "\n\n"
            ((store.filter (searchMatches query)).map (fun p => searchEntry p.1 p.2))) := by
  have heq := searchLoop_eq_filter (pyLower query) store
  have heq' : searchLoop (pyLower query) store
      = (store.filter (searchMatches query)).map (fun p => searchEntry p.1 p.2) := heq
  refine ⟨heq', ?_, ?_, ?_, ?_⟩
  · intro p hp hmd hsub
    rw [heq']
    refine List.mem_map.mpr ⟨p, List.mem_filter.mpr ⟨hp, ?_⟩, rfl⟩
    simp only [searchMatches, Bool.and_eq_true]
    exact ⟨hmd, (pyIn_iff _ _).mpr hsub⟩
  · intro r hr
    rw [heq'] at hr
    obtain ⟨p, hpf, hpe⟩ := List.mem_map.mp hr
    obtain ⟨hps, hpm⟩ := List.mem_filter.mp hpf
    simp only [searchMatches, Bool.and_eq_true] at hpm
    exact ⟨p, hps, hpm.1, (pyIn_iff _ _).mp hpm.2, hpe.symm⟩
  · intro hempty
    unfold memory_search
    rw [heq']
    have hf : (store.filter (searchMatches query)) = [] := List.isEmpty_iff.mp hempty
    rw [hf]
    rfl
  · intro hne
    unfold memory_search
    rw [heq']
    have hf : ((store.filter (searchMatches query)).map
        (fun p => searchEntry p.1 p.2)).isEmpty = false := by
      rw [List.isEmpty_eq_false_iff_exists_mem] at hne ⊢
      obtain ⟨x, hx⟩ := hne
      exact ⟨searchEntry x.1 x.2, List.mem_map.mpr ⟨x, hx, rfl⟩⟩
    rw [hf]
    rfl

/-- A concrete store for witnesses: one matching note, one non-matching
note, and the embeddings index file (not a `.md` file). -/
def wStore : FileStore :=
  [("prefs.md", "User likes Blue."), ("other.md", "nothing here"),
   ("embeddings.json", "blue")]

theorem memory_search_exact_spec_witness :
    searchEntry "prefs.md" "User likes Blue."
        ∈ searchLoop (pyLower "blue") wStore ∧
    (∃ p ∈ wStore,
      pyEndsWith p.1 ".md" = true ∧
      (pyLower "blue").data <:+: (pyLower p.2).data ∧
      searchEntry "prefs.md" "User likes Blue." = searchEntry p.1 p.2) ∧
    memory_search wStore "purple"
      = "No memories found matching " ++ squote ++ "purple" ++ squote ∧
    memory_search wStore "blue"
      = String.intercalate "\n\n"
          ((wStore.filter (searchMatches "blue")).map (fun p => searchEntry p.1 p.2)) := by
  refine ⟨?_, ?_, ?_, ?_⟩
  · exact (memory_search_exact_spec wStore "blue").2.1 ("prefs.md", "User likes Blue.")
      (by simp [wStore]) (by decide) (by decide)
  · exact (memory_search_exact_spec wStore "blue").2.2.1
      (searchEntry "prefs.md" "User likes Blue.")
      ((memory_search_exact_spec wStore "blue").2.1 ("prefs.md", "User likes Blue.")
        (by simp [wStore]) (by decide) (by decide))
  · exact (memory_search_exact_spec wStore "purple").2.2.2.1 (by decide)
  · exact (memory_search_exact_spec wStore "blue").2.2.2.2 (by decide)

/-! ## `memory_read` (`agent_with_memory.py` and `memory_with_embeddings.py`) -/

/-- The `.md`-normalisation at the top of `memory_read`. -/
def normalizeMd (filename : String) : String :=
  if pyEndsWith filename ".md" then filename else filename ++ ".md"

/-- File-system lookup by name. -/
def lookupFile (store : FileStore) (fn : String) : Option String :=
  (List.find? (fun p => p.1 == fn) store).map Prod.snd

/-- `memory_read`: add `.md` when absent, read the file, and report a missing
file as a `Memory file not found: <name>` result instead of raising. -/
def memory_read (store : FileStore) (filename : String) : String :=
  match lookupFile store (normalizeMd filename) with
  | some content => content
  | none => "Memory file not found: " ++ normalizeMd filename

/-- C10. `memory_read` normalises its argument by appending `.md` when
absent — reading `filename` equals reading `filename ++ ".md"` — and a
missing file yields the `Memory file not found: <filename>.md` text rather
than an exception. -/
theorem memory_read_normalizes (store : FileStore) (filename : String)
    (h : pyEndsWith filename ".md" = false) :
    memory_read store filename = memory_read store (filename ++ ".md") ∧
    (lookupFile store (filename ++ ".md") = none →
      memory_read store filename = "Memory file not found: " ++ (filename ++ ".md")) := by
  have hn : normalizeMd filename = filename ++ ".md" := by
    unfold normalizeMd
    rw [h]
    rfl
  have hn2 : normalizeMd (filename ++ ".md") = filename ++ ".md" := by
    unfold normalizeMd
    rw [pyEndsWith_append]
    rfl
  constructor
  · unfold memory_read
    rw [hn, hn2]
  · intro hmiss
    unfold memory_read
    rw [hn, hmiss]

theorem memory_read_normalizes_witness :
    pyEndsWith "notes" ".md" = false ∧
    memory_read wStore "notes" = memory_read wStore ("notes" ++ ".md") ∧
    memory_read wStore "notes" = "Memory file not found: " ++ ("notes" ++ ".md") := by
  refine ⟨by decide, (memory_read_normalizes wStore "notes" (by decide)).1,
    (memory_read_normalizes wStore "notes" (by decide)).2 (by decide)⟩

/-! ## Tool dispatcher (`execute_tool`)

A capability takes the decoded argument map (an abstract type `Args`) and
either returns a text result or raises; raising — from argument binding
(`func(**arguments)`) or from the body — is modelled as `Except.error` with
the exception text. -/

/-- `TOOL_FUNCTIONS` lookup (`tool_name in TOOL_FUNCTIONS` on a dict). -/
def lookupFn {Args : Type} (funcs : List (String × (Args → Except String String)))
    (tool_name : String) : Option (Args → Except String String) :=
  (List.find? (fun p => p.1 == tool_name) funcs).map Prod.snd

/-- `execute_tool` from `agent_with_memory.py`. -/
def execute_tool {Args : Type} (funcs : List (String × (Args → Except String String)))
    (tool_name : String) (arguments : Args) : String :=
  match lookupFn funcs tool_name with
  | none => "Error: Unknown tool " ++ squote ++ tool_name ++ squote
  | some func =>
    match func arguments with
    | Except.ok result => result
    | Except.error e => "Error executing " ++ tool_name ++ ": " ++ e

/-- `execute_tool` from `agent_with_behaviors.py` (different wording of the
two error messages). -/
def execute_tool_behaviors {Args : Type}
    (funcs : List (String × (Args → Except String String)))
    (name : String) (args : Args) : String :=
  match lookupFn funcs name with
  | none => "Unknown tool: " ++ name
  | some func =>
    match func args with
    | Except.ok result => result
    | Except.error e => "Error: " ++ e

/-- C5. Both dispatchers are total: every call returns a string.  An unknown
tool name yields the text identifying it as unrecognised, any exception the
capability raises is converted into a descriptive text result, and a normal
result is passed through unchanged. -/
theorem execute_tool_spec {Args : Type}
    (funcs : List (String × (Args → Except String String)))
    (tool_name : String) (arguments : Args) :
    (lookupFn funcs tool_name = none →
      execute_tool funcs tool_name arguments
          = "Error: Unknown tool " ++ squote ++ tool_name ++ squote ∧
      execute_tool_behaviors funcs tool_name arguments
          = "Unknown tool: " ++ tool_name) ∧
    (∀ func, lookupFn funcs tool_name = some func →
      (∀ e, func arguments = Except.error e →
        execute_tool funcs tool_name arguments
            = "Error executing " ++ tool_name ++ ": " ++ e ∧
        execute_tool_behaviors funcs tool_name arguments = "Error: " ++ e) ∧
      (∀ result, func arguments = Except.ok result →
        execute_tool funcs tool_name arguments = result ∧
        execute_tool_behaviors funcs tool_name arguments = result)) := by
  constructor
  · intro hnone
    unfold execute_tool execute_tool_behaviors
    rw [hnone]
    exact ⟨rfl, rfl⟩
  · intro func hfunc
    constructor
    · intro e he
      unfold execute_tool execute_tool_behaviors
      rw [hfunc]
      dsimp only
      rw [he]
      exact ⟨rfl, rfl⟩
    · intro result hr
      unfold execute_tool execute_tool_behaviors
      rw [hfunc]
      dsimp only
      rw [hr]
      exact ⟨rfl, rfl⟩

/-- A concrete capability table for the C5 witness: a capability that
succeeds and one that raises. -/
def wFuncs : List (String × (Unit → Except String String)) :=
  [("get_current_time", fun _ => Except.ok "2025-01-01 00:00:00"),
   ("memory_read", fun _ => Except.error "missing argument")]

theorem execute_tool_spec_witness :
    execute_tool wFuncs "unknown_tool" ()
        = "Error: Unknown tool " ++ squote ++ "unknown_tool" ++ squote ∧
    execute_tool_behaviors wFuncs "unknown_tool" () = "Unknown tool: " ++ "unknown_tool" ∧
    execute_tool wFuncs "get_current_time" () = "2025-01-01 00:00:00" ∧
    execute_tool wFuncs "memory_read" ()
        = "Error executing " ++ "memory_read" ++ ": " ++ "missing argument" := by
  refine ⟨?_, ?_, ?_, ?_⟩
  · exact ((execute_tool_spec wFuncs "unknown_tool" ()).1 rfl).1
  · exact ((execute_tool_spec wFuncs "unknown_tool" ()).1 rfl).2
  · exact (((execute_tool_spec wFuncs "get_current_time" ()).2
      (fun _ => Except.ok "2025-01-01 00:00:00") rfl).2 "2025-01-01 00:00:00" rfl).1
  · exact (((execute_tool_spec wFuncs "memory_read" ()).2
      (fun _ => Except.error "missing argument") rfl).1 "missing argument" rfl).1

/-! ## Semantic memory (`memory_with_embeddings.py`)

Embeddings are abstract vectors of rationals and the float
`cosine_similarity` is an abstract score function `sim`; the `%.2f`
rendering of the score is abstracted to `toString`.  `get_embedding` calls
the external service and may raise, so the query embedding arrives as an
`Except`. -/

/-- `# Only include if similarity is meaningful (> 0.3 is a reasonable
threshold)` -/
def threshold : ℚ := mkRat 3 10

/-- One record of `embeddings.json`. -/
structure IndexEntry where
  id : String
  filename : String
  content : String
  timestamp : String
  embedding : List ℚ
deriving DecidableEq, Repr

/-- One element of the `scored` list built by `memory_search`. -/
structure Scored where
  similarity : ℚ
  filename : String
  content : String
  timestamp : String
deriving DecidableEq, Repr

/-- The `for entry in embeddings_data["entries"]` scoring loop. -/
def scoreAll (sim : List ℚ → List ℚ → ℚ) (qe : List ℚ)
    (entries : List IndexEntry) : List Scored :=
  entries.map (fun e => Scored.mk (sim qe e.embedding) e.filename e.content e.timestamp)

/-- `scored.sort(key=lambda x: x["similarity"], reverse=True)` — the
comparison of the stable descending sort. -/
def simDesc (a b : Scored) : Bool :=
  decide (b.similarity ≤ a.similarity)

/-- `scored[:top_k]` then the `> 0.3` filter of the result loop. -/
def searchSelect (top_k : Nat) (scored : List Scored) : List Scored :=
  ((scored.mergeSort simDesc).take top_k).filter (fun x => decide (threshold < x.similarity))

/-- `f"[{similarity:.2f}] ({filename}, {timestamp})\n{content}"` with the
float rendering abstracted. -/
def formatHit (x : Scored) : String :=
  "[" ++ toString x.similarity ++ "] (" ++ x.filename ++ ", " ++ x.timestamp ++ ")\n"
    ++ x.content

/-- `memory_search` from `memory_with_embeddings.py`. -/
def memory_search_sem (sim : List ℚ → List ℚ → ℚ) (entries : List IndexEntry)
    (qe : Except String (List ℚ)) (query : String) (top_k : Nat := 3) : String :=
  if entries.isEmpty then
    "No memories stored yet."
  else
    match qe with
    | Except.error e => "Error creating query embedding: " ++ e
    | Except.ok q =>
      if (searchSelect top_k (scoreAll sim q entries)).isEmpty then
        "No memories found semantically related to " ++ squote ++ query ++ squote
      else
        "Found relevant memories:\n\n"
          ++ String.intercalate "\n\n---\n\n"
              ((searchSelect top_k (scoreAll sim q entries)).map formatHit)

theorem simDesc_trans (a b c : Scored) :
    simDesc a b → simDesc b c → simDesc a c := by
  simp only [simDesc, decide_eq_true_eq]
  exact fun h1 h2 => le_trans h2 h1

theorem simDesc_total (a b : Scored) : simDesc a b || simDesc b a := by
  simp only [simDesc, Bool.or_eq_true, decide_eq_true_eq]
  exact le_total b.similarity a.similarity

/-- C3. `memory_search` over the embeddings index returns at most `top_k`
records, in non-increasing similarity order, never one whose similarity is
below the `0.3` threshold; the sort is stable (records of equal similarity
stay in insertion order); an empty index yields the distinct
`No memories stored yet.` message, and a non-empty index where nothing
clears the threshold yields the distinct message naming the query. -/
theorem memory_search_sem_spec (sim : List ℚ → List ℚ → ℚ)
    (entries : List IndexEntry) (q : List ℚ) (query : String) (top_k : Nat) :
    (searchSelect top_k (scoreAll sim q entries)).length ≤ top_k ∧
    (searchSelect top_k (scoreAll sim q entries)).Pairwise
      (fun a b => b.similarity ≤ a.similarity) ∧
    (∀ x ∈ searchSelect top_k (scoreAll sim q entries), ¬ x.similarity < threshold) ∧
    (∀ v : ℚ,
      ((scoreAll sim q entries).mergeSort simDesc).filter (fun x => decide (x.similarity = v))
        = (scoreAll sim q entries).filter (fun x => decide (x.similarity = v))) ∧
    (entries.isEmpty = true →
      memory_search_sem sim entries (Except.ok q) query top_k = "No memories stored yet.") ∧
    (entries.isEmpty = false →
      (searchSelect top_k (scoreAll sim q entries)).isEmpty = true →
      memory_search_sem sim entries (Except.ok q) query top_k
        = "No memories found semantically related to " ++ squote ++ query ++ squote) ∧
    (entries.isEmpty = false →
      (searchSelect top_k (scoreAll sim q entries)).isEmpty = false →
      memory_search_sem sim entries (Except.ok q) query top_k
        = "Found relevant memories:\n\n"
            ++ String.intercalate "\n\n---\n\n"
                ((searchSelect top_k (scoreAll sim q entries)).map formatHit)) := by
  refine ⟨?_, ?_, ?_, ?_, ?_, ?_, ?_⟩
  · calc (searchSelect top_k (scoreAll sim q entries)).length
        ≤ (((scoreAll sim q entries).mergeSort simDesc).take top_k).length :=
          List.length_filter_le _ _
      _ ≤ top_k := by
          rw [List.length_take]
          exact Nat.min_le_left _ _
  · have hs : (((scoreAll sim q entries).mergeSort simDesc)).Pairwise
        (fun a b => simDesc a b = true) :=
      List.sorted_mergeSort simDesc_trans simDesc_total (scoreAll sim q entries)
    have hsub : List.Sublist (searchSelect top_k (scoreAll sim q entries))
        ((scoreAll sim q entries).mergeSort simDesc) :=
      (List.filter_sublist _).trans (List.take_sublist _ _)
    exact (hs.sublist hsub).imp (fun h => by
      simpa [simDesc, decide_eq_true_eq] using h)
  · intro x hx
    have hmem := List.mem_filter.mp hx
    have hlt : threshold < x.similarity := of_decide_eq_true hmem.2
    exact not_lt_of_gt hlt
  · intro v
    have hperm : List.Perm
        (((scoreAll sim q entries).mergeSort simDesc).filter
          (fun x => decide (x.similarity = v)))
        ((scoreAll sim q entries).filter (fun x => decide (x.similarity = v))) :=
      (List.mergeSort_perm (scoreAll sim q entries) simDesc).filter _
    have hall : ((scoreAll sim q entries).filter
        (fun x => decide (x.similarity = v))).Pairwise (fun a b => simDesc a b = true) := by
      refine List.pairwise_of_forall_mem_list ?_
      intro a ha b hb
      have ha2 : a.similarity = v := of_decide_eq_true (List.mem_filter.mp ha).2
      have hb2 : b.similarity = v := of_decide_eq_true (List.mem_filter.mp hb).2
      simp [simDesc, ha2, hb2]
    have hsubl : List.Sublist
        ((scoreAll sim q entries).filter (fun x => decide (x.similarity = v)))
        ((scoreAll sim q entries).mergeSort simDesc) :=
      List.sublist_mergeSort simDesc_trans simDesc_total hall
        (List.filter_sublist _)
    have hsub2 : List.Sublist
        ((scoreAll sim q entries).filter (fun x => decide (x.similarity = v)))
        (((scoreAll sim q entries).mergeSort simDesc).filter
            (fun x => decide (x.similarity = v))) := by
      have h2 := hsubl.filter (fun x => decide (x.similarity = v))
      rw [List.filter_filter] at h2
      simpa [Bool.and_self] using h2
    exact (hsub2.eq_of_length hperm.length_eq.symm).symm
  · intro hempty
    unfold memory_search_sem
    rw [hempty]
    rfl
  · intro hne hsel
    unfold memory_search_sem
    rw [hne]
    simp only [Bool.false_eq_true, if_false]
    rw [hsel]
    simp
  · intro hne hsel
    unfold memory_search_sem
    rw [hne]
    simp only [Bool.false_eq_true, if_false]
    rw [hsel]
    simp

/-- The abstract score function for witnesses: the head of the record
embedding. -/
def simW : List ℚ → List ℚ → ℚ := fun _ e => e.headD 0

/-- Witness index: one record scoring 1 (above the threshold). -/
def wEntries : List IndexEntry :=
  [IndexEntry.mk "prefs_1" "prefs" "likes blue" "2025-01-01 00:00" [1]]

/-- Witness index: one record scoring 1/4 (below the threshold). -/
def wEntriesLow : List IndexEntry :=
  [IndexEntry.mk "misc_1" "misc" "likes tea" "2025-01-02 00:00" [mkRat 1 4]]

theorem memory_search_sem_spec_witness :
    memory_search_sem simW [] (Except.ok [1]) "color" 3 = "No memories stored yet." ∧
    memory_search_sem simW wEntriesLow (Except.ok [1]) "color" 3
      = "No memories found semantically related to " ++ squote ++ "color" ++ squote ∧
    memory_search_sem simW wEntries (Except.ok [1]) "color" 3
      = "Found relevant memories:\n\n"
          ++ String.intercalate "\n\n---\n\n"
              ((searchSelect 3 (scoreAll simW [1] wEntries)).map formatHit) := by
  have hlow : ¬ (threshold < mkRat 1 4) := by
    rw [threshold]
    norm_num [Rat.mkRat_eq_div]
  have hhigh : threshold < (1 : ℚ) := by
    rw [threshold]
    norm_num [Rat.mkRat_eq_div]
  refine ⟨?_, ?_, ?_⟩
  · exact (memory_search_sem_spec simW [] [1] "color" 3).2.2.2.2.1 rfl
  · exact (memory_search_sem_spec simW wEntriesLow [1] "color" 3).2.2.2.2.2.1 rfl
      (by simp [searchSelect, scoreAll, simW, wEntriesLow, hlow])
  · exact (memory_search_sem_spec simW wEntries [1] "color" 3).2.2.2.2.2.2 rfl
      (by simp [searchSelect, scoreAll, simW, wEntries, hhigh])

/-- C9. The threshold comparison in semantic `memory_search` is strict:
every returned record has similarity strictly greater than `0.3`, and a
scored record whose similarity equals the threshold exactly is excluded
from the results. -/
theorem threshold_comparison_strict (sim : List ℚ → List ℚ → ℚ)
    (entries : List IndexEntry) (q : List ℚ) (top_k : Nat) :
    (∀ x ∈ searchSelect top_k (scoreAll sim q entries), threshold < x.similarity) ∧
    (∀ x ∈ scoreAll sim q entries, x.similarity = threshold →
      x ∉ searchSelect top_k (scoreAll sim q entries)) := by
  constructor
  · intro x hx
    exact of_decide_eq_true (List.mem_filter.mp hx).2
  · intro x _ hxs hmem
    have hlt : threshold < x.similarity := of_decide_eq_true (List.mem_filter.mp hmem).2
    rw [hxs] at hlt
    exact lt_irrefl _ hlt

/-- Witness index for C9: a record whose similarity is exactly `3/10`. -/
def wEntriesEq : List IndexEntry :=
  [IndexEntry.mk "prefs_1" "prefs" "likes blue" "2025-01-01 00:00" [mkRat 3 10]]

theorem threshold_comparison_strict_witness :
    Scored.mk (mkRat 3 10) "prefs" "likes blue" "2025-01-01 00:00"
        ∈ scoreAll simW [1] wEntriesEq ∧
    Scored.mk (mkRat 3 10) "prefs" "likes blue" "2025-01-01 00:00"
        ∉ searchSelect 3 (scoreAll simW [1] wEntriesEq) := by
  refine ⟨?_, ?_⟩
  · simp [scoreAll, wEntriesEq, simW]
  · exact (threshold_comparison_strict simW wEntriesEq [1] 3).2
      (Scored.mk (mkRat 3 10) "prefs" "likes blue" "2025-01-01 00:00")
      (by simp [scoreAll, wEntriesEq, simW]) rfl

/-! ## `memory_write` with embedding indexing (`memory_with_embeddings.py`)

The state pairs the note files with the `embeddings.json` index.  The three
fallible externals — the file write, `get_embedding`, and the
`load_embeddings`/`save_embeddings` round trip — are modelled as `Except`
outcomes; a file or index write is atomic (it either happens or leaves the
state unchanged). -/

/-- The combined persistent state of the semantic-memory module. -/
structure MemState where
  files : FileStore
  entries : List IndexEntry

/-- `f"\n## [{timestamp}]\n{content}\n"` -/
def noteEntry (timestamp content : String) : String :=
  "\n## [" ++ timestamp ++ "]\n" ++ content ++ "\n"

/-- Keyed update of the file store. -/
def writeFileStore (files : FileStore) (fn content : String) : FileStore :=
  (fn, content) :: files.filter (fun p => !(p.1 == fn))

/-- The content of `<filename>.md` after the `open(filepath, mode)` block:
append to the existing content (`'a'`, a missing file reads as empty), or
start over with the `# <filename>` header (`'w'`). -/
def newNoteContent (files : FileStore) (filename content timestamp : String)
    (append : Bool) : String :=
  if append then
    (lookupFile files (filename ++ ".md")).getD "" ++ noteEntry timestamp content
  else
    ("# " ++ filename ++ "\n") ++ noteEntry timestamp content

/-- `f"✓ Saved to memory: {filename}.md (with embedding)"` -/
def writeSuccessMsg (filename : String) : String :=
  "✓ Saved to memory: " ++ (filename ++ ".md (with embedding)")

/-- `f"Saved to file but embedding failed: {e}"` -/
def partialFailureMsg (e : String) : String :=
  "Saved to file but embedding failed: " ++ e

/-- `f"Error writing memory: {e}"` -/
def writeErrorMsg (e : String) : String :=
  "Error writing memory: " ++ e

/-- `memory_write` from `memory_with_embeddings.py`.  `writeRes` is the
outcome of the file write, `embedRes` the outcome of `get_embedding`,
`saveRes` the outcome of the `load_embeddings`/`save_embeddings` round
trip. -/
def memory_write_sem (writeRes : Except String Unit)
    (embedRes : Except String (List ℚ)) (saveRes : Except String Unit)
    (st : MemState) (filename content timestamp : String)
    (append : Bool := true) : MemState × String :=
  match writeRes with
  | Except.error e => (st, writeErrorMsg e)
  | Except.ok _ =>
    match embedRes with
    | Except.error e =>
      (MemState.mk
        (writeFileStore st.files (filename ++ ".md")
          (newNoteContent st.files filename content timestamp append))
        st.entries,
       partialFailureMsg e)
    | Except.ok emb =>
      match saveRes with
      | Except.error e =>
        (MemState.mk
          (writeFileStore st.files (filename ++ ".md")
            (newNoteContent st.files filename content timestamp append))
          st.entries,
         partialFailureMsg e)
      | Except.ok _ =>
        (MemState.mk
          (writeFileStore st.files (filename ++ ".md")
            (newNoteContent st.files filename content timestamp append))
          (st.entries
            ++ [IndexEntry.mk (filename ++ "_" ++ timestamp) filename content timestamp emb]),
         writeSuccessMsg filename)

theorem lookupFile_writeFileStore (files : FileStore) (fn content : String) :
    lookupFile (writeFileStore files fn content) fn = some content := by
  unfold lookupFile writeFileStore
  rw [List.find?_cons_of_pos]
  · rfl
  · exact beq_self_eq_true fn

theorem newNoteContent_endsWith (files : FileStore)
    (filename content timestamp : String) (append : Bool) :
    pyEndsWith (newNoteContent files filename content timestamp append)
      (noteEntry timestamp content) = true := by
  unfold newNoteContent
  cases append with
  | true => exact pyEndsWith_append _ _
  | false => exact pyEndsWith_append _ _

/-- C6. If the note-file write succeeds but computing or storing the
embedding fails, the written note is not rolled back — the note file now
ends with the new timestamped block — the embeddings index is unchanged,
and the returned text is the partial-failure report, distinct from both the
full-success confirmation and the write-failure message. -/
theorem memory_write_partial_index_failure (st : MemState)
    (filename content timestamp : String) (append : Bool)
    (e e2 e3 e4 f2 : String) (emb : List ℚ)
    (er : Except String (List ℚ)) (sr : Except String Unit) :
    (memory_write_sem (Except.ok ()) (Except.error e) (Except.ok ())
        st filename content timestamp append).1.files
      = writeFileStore st.files (filename ++ ".md")
          (newNoteContent st.files filename content timestamp append) ∧
    pyEndsWith
      ((lookupFile (memory_write_sem (Except.ok ()) (Except.error e) (Except.ok ())
          st filename content timestamp append).1.files (filename ++ ".md")).getD "")
      (noteEntry timestamp content) = true ∧
    (memory_write_sem (Except.ok ()) (Except.error e) (Except.ok ())
        st filename content timestamp append).1.entries = st.entries ∧
    (memory_write_sem (Except.ok ()) (Except.error e) (Except.ok ())
        st filename content timestamp append).2 = partialFailureMsg e ∧
    (memory_write_sem (Except.ok ()) (Except.ok emb) (Except.error e2)
        st filename content timestamp append).1.entries = st.entries ∧
    (memory_write_sem (Except.ok ()) (Except.ok emb) (Except.error e2)
        st filename content timestamp append).2 = partialFailureMsg e2 ∧
    (memory_write_sem (Except.ok ()) (Except.ok emb) (Except.ok ())
        st filename content timestamp append).2 = writeSuccessMsg filename ∧
    (memory_write_sem (Except.error e3) er sr
        st filename content timestamp append).1 = st ∧
    (memory_write_sem (Except.error e3) er sr
        st filename content timestamp append).2 = writeErrorMsg e3 ∧
    partialFailureMsg e ≠ writeSuccessMsg f2 ∧
    partialFailureMsg e ≠ writeErrorMsg e4 := by
  refine ⟨rfl, ?_, rfl, rfl, rfl, rfl, rfl, rfl, rfl, ?_, ?_⟩
  · show pyEndsWith
      ((lookupFile (writeFileStore st.files (filename ++ ".md")
          (newNoteContent st.files filename content timestamp append))
        (filename ++ ".md")).getD "")
      (noteEntry timestamp content) = true
    rw [lookupFile_writeFileStore]
    exact newNoteContent_endsWith st.files filename content timestamp append
  · unfold partialFailureMsg writeSuccessMsg
    exact append_ne_append_of_head _ _ rfl rfl (by decide)
  · unfold partialFailureMsg writeErrorMsg
    exact append_ne_append_of_head _ _ rfl rfl (by decide)

/-! ## Checkpointing (`agent_with_behaviors.py`)

`checkpoint.json` holds at most one snapshot; it is modelled as an
`Option Checkpoint` slot. -/

/-- The dict written by `checkpoint_save`. -/
structure Checkpoint where
  timestamp : String
  task : String
  status : String
  completed : List String
  next_steps : List String
  blockers : Option String
deriving DecidableEq, Repr

/-- Python `x or default` on an optional list (`completed or []`):
`None` and the empty list both give the default. -/
def pyOrList (o : Option (List String)) : List String :=
  match o with
  | none => []
  | some l => if l.isEmpty then [] else l

/-- Python `x or default` on an optional string (`cp['blockers'] or 'None'`):
`None` and the empty string both give the default. -/
def pyOrStr (o : Option String) (d : String) : String :=
  match o with
  | none => d
  | some s => if s.isEmpty then d else s

/-- `checkpoint_save`: build the snapshot dict and overwrite
`checkpoint.json` (`open(..., 'w')` plus `json.dump`). -/
def checkpoint_save (slot : Option Checkpoint) (timestamp task status : String)
    (completed next_steps : Option (List String)) (blockers : Option String) :
    Option Checkpoint × String :=
  (some (Checkpoint.mk timestamp task status (pyOrList completed)
      (pyOrList next_steps) blockers),
   "✓ Checkpoint saved: " ++ task ++ " (" ++ status ++ ")")

/-- `checkpoint_load`: render the stored snapshot, or report that none
exists. -/
def checkpoint_load (slot : Option Checkpoint) : String :=
  match slot with
  | none => "No checkpoint found."
  | some cp =>
    "Last checkpoint:\nTask: " ++ cp.task
      ++ "\nStatus: " ++ cp.status
      ++ "\nWhen: " ++ cp.timestamp
      ++ "\nCompleted: "
      ++ (if cp.completed.isEmpty then "None yet"
          else String.intercalate ", " cp.completed)
      ++ "\nNext steps: "
      ++ (if cp.next_steps.isEmpty then "None specified"
          else String.intercalate ", " cp.next_steps)
      ++ "\nBlockers: " ++ pyOrStr cp.blockers "None"

/-- C8. `checkpoint_save` fully replaces the single slot: after `save(A)`
then `save(B)` the slot holds exactly `B`'s fields, the result is
independent of what was stored before (`no trace of A`), `load` renders
exactly `B`, and `load` with no saved checkpoint returns the distinct
`No checkpoint found.` result. -/
theorem checkpoint_overwrite (slot : Option Checkpoint)
    (tsA taskA statusA : String) (cA nA : Option (List String)) (bA : Option String)
    (tsB taskB statusB : String) (cB nB : Option (List String)) (bB : Option String) :
    (checkpoint_save
        (checkpoint_save slot tsA taskA statusA cA nA bA).1
        tsB taskB statusB cB nB bB).1
      = some (Checkpoint.mk tsB taskB statusB (pyOrList cB) (pyOrList nB) bB) ∧
    (checkpoint_save
        (checkpoint_save slot tsA taskA statusA cA nA bA).1
        tsB taskB statusB cB nB bB)
      = checkpoint_save slot tsB taskB statusB cB nB bB ∧
    checkpoint_load
        (checkpoint_save
          (checkpoint_save slot tsA taskA statusA cA nA bA).1
          tsB taskB statusB cB nB bB).1
      = "Last checkpoint:\nTask: " ++ taskB
          ++ "\nStatus: " ++ statusB
          ++ "\nWhen: " ++ tsB
          ++ "\nCompleted: "
          ++ (if (pyOrList cB).isEmpty then "None yet"
              else String.intercalate ", " (pyOrList cB))
          ++ "\nNext steps: "
          ++ (if (pyOrList nB).isEmpty then "None specified"
              else String.intercalate ", " (pyOrList nB))
          ++ "\nBlockers: " ++ pyOrStr bB "None" ∧
    checkpoint_load none = "No checkpoint found." :=
  ⟨rfl, rfl, rfl, rfl⟩

end Microwave
